import Mathlib

/-!
Shallow embedding of the chart scene-graph compositor
(src/core/graphics/renderer/index.ts) of the charticulator repository.

The renderer module itself (facetRows, ChartRenderer.renderGlyphMarks,
ChartRenderer.renderChart, ChartRenderer.render) is translated from the
source.  Helpers imported by the module from other files of the repository
(MultistringHashMap, zipArray, transpose, getById, makeGroup) and the
external collaborator interfaces (state manager, drawing capabilities,
coordinate systems) are not under src/ and are modelled from the
specification, as marked in their doc comments.

Numbers that are floating point in the source are modelled as Int: the only
arithmetic the module performs is the offset subtraction, which is exact.
JavaScript null/undefined values are modelled as Option.  Faults that throw
in JavaScript (unknown glyph template id, a glyph state with no marks) make
the embedded functions return none.
-/

set_option linter.unusedVariables false

namespace Charticulator

/-- A scalar cell value of a dataset row (string, number or boolean). -/
inductive DValue where
  | str (s : String)
  | num (n : Int)
  | bool (b : Bool)
  deriving DecidableEq

/-- A dataset row: a finite mapping from column name to scalar value. -/
abbrev Row := List (String × DValue)

/-- Reading row[c]; none models the undefined value of a missing column. -/
def rowGet (row : Row) (c : String) : Option DValue :=
  (row.find? (fun p => p.1 == c)).map (fun p => p.2)

/-- Modelled from the spec: one insertion step of MultistringHashMap, the
insertion-ordered map with composite ordered-tuple keys and structural key
equality.  If the key is present the index is appended to its group,
otherwise a new group is appended at the end (first-seen order). -/
def groupInsert {κ : Type} [DecidableEq κ] (key : κ) (index : Nat) :
    List (κ × List Nat) → List (κ × List Nat)
  | [] => [(key, [index])]
  | (k, g) :: rest =>
    if k = key then (k, g ++ [index]) :: rest
    else (k, g) :: groupInsert key index rest

/-- The tuple of facet values of the row at a given index (the facetValues
computed inside facetRows). -/
def facetKey (rows : List Row) (cols : List String) (index : Nat) :
    List (Option DValue) :=
  cols.map (fun c => rowGet (rows.getD index []) c)

/-- Translation of the source function facetRows: partition the given row
indices into groups sharing identical values at the given columns, in
first-seen order; with no columns, a single group holding all indices. -/
def facetRows (rows : List Row) (indices : List Nat)
    (columns : Option (List String)) : List (List Nat) :=
  match columns with
  | none => [indices]
  | some cols =>
    (indices.foldl
        (fun facets index => groupInsert (facetKey rows cols index) index facets)
        []).map (fun p => p.2)

/-- Generic version of the facetRows accumulation loop, over an arbitrary
key function; facetRows with columns is this fold at facetKey. -/
def foldIns {κ : Type} [DecidableEq κ] (f : Nat → κ)
    (m : List (κ × List Nat)) (l : List Nat) : List (κ × List Nat) :=
  l.foldl (fun facets index => groupInsert (f index) index facets) m

/-- The keys of the accumulated facet map, in insertion order. -/
def gKeys {κ : Type} (m : List (κ × List Nat)) : List κ :=
  m.map (fun p => p.1)

/-- The keys of a traversal that are not yet in seen, in first-seen order. -/
def newKeysAux {κ : Type} [DecidableEq κ] (f : Nat → κ) (seen : List κ) :
    List Nat → List κ
  | [] => []
  | i :: rest =>
    if f i ∈ seen then newKeysAux f seen rest
    else f i :: newKeysAux f (f i :: seen) rest

/-- A 2-D point (the Point of the common module). -/
structure Point where
  x : Int
  y : Int
  deriving DecidableEq

/-- An opaque transform descriptor attached to a group. -/
structure Transform where
  tx : Int
  ty : Int
  angle : Int
  deriving DecidableEq

/-- Modelled from the spec: a coordinate system supplies a base transform
per system kind; the concrete mapping logic is an external collaborator. -/
structure CoordinateSystem where
  kindTag : String
  baseTransform : Transform
  deriving DecidableEq

/-- Modelled from the spec: the identity/default cartesian coordinate
system anchored at the given origin. -/
def mkCartesian (origin : Point) : CoordinateSystem :=
  ⟨"cartesian", ⟨origin.x, origin.y, 0⟩⟩

/-- The closed variant set of chart element kinds that renderChart
dispatches on via Prototypes.isType. -/
inductive ElementKind where
  | plotSegmentKind
  | markKind
  | chartElementKind
  deriving DecidableEq

/-- A top-level chart element of the specification.  The visibility flag is
element.properties.visible; glyph is the glyph template id referenced by a
plot-segment element; the three enable flags are the interaction properties
carried on the plot-segment object. -/
structure ChartElement where
  _id : String
  classID : ElementKind
  visible : Bool
  glyph : String
  enableTooltips : Bool
  enableContextMenu : Bool
  enableSelection : Bool
  deriving DecidableEq

/-- A mark of a glyph template; visible is mark.properties.visible. -/
structure Mark where
  visible : Bool
  deriving DecidableEq

/-- A glyph template: an ordered sequence of marks. -/
structure Glyph where
  _id : String
  marks : List Mark
  deriving DecidableEq

/-- The chart specification: ordered elements plus the glyph templates. -/
structure Chart where
  elements : List ChartElement
  glyphs : List Glyph

/-- The state of one mark: its solved x/y attributes; stateTag is an opaque
identity used by the manager to resolve the mark drawing capability. -/
structure MarkState where
  x : Int
  y : Int
  stateTag : Nat
  deriving DecidableEq, Inhabited

/-- The state of one glyph instance: its position attributes, the optional
emphasized flag and one state per mark of the template. -/
structure GlyphState where
  x : Int
  y : Int
  emphasized : Option Bool
  marks : List MarkState
  deriving DecidableEq

/-- The state of a plot-segment element: one glyph state per instantiated
glyph occurrence and the row indices each occurrence represents. -/
structure PlotSegmentState where
  glyphs : List GlyphState
  dataRowIndices : List (List Nat)
  deriving DecidableEq, Inhabited

/-- The state of one top-level chart element (index-aligned with the
specification); the variant mirrors the runtime casts of the source. -/
inductive ChartElementState where
  | plotSegmentState (s : PlotSegmentState)
  | markState (s : MarkState)
  | chartElementState (tag : Nat)
  deriving DecidableEq

/-- The cast elementState as PlotSegmentState of the source; a mismatched
kind yields a default value, as claims only concern aligned states. -/
def ChartElementState.asPlotSegmentState : ChartElementState → PlotSegmentState
  | .plotSegmentState s => s
  | _ => default

/-- The cast of an element state to a mark state for standalone marks. -/
def ChartElementState.asMarkState : ChartElementState → MarkState
  | .markState s => s
  | _ => default

/-- The chart state tree: one element state per chart element. -/
structure ChartState where
  elements : List ChartElementState

/-- Selectable interaction metadata attached to an output node. -/
structure Selectable where
  plotSegment : ChartElement
  glyphIndex : Nat
  rowIndices : Option (List Nat)
  enableTooltips : Bool
  enableContextMenu : Bool
  enableSelection : Bool
  deriving DecidableEq

/-- A scene-graph node: an opaque drawable primitive (identified by a tag)
or a group with optional transform, identity key, selectable metadata and a
child list in which entries may be none (nothing to draw). -/
inductive Element where
  | prim (primId : Nat) (selectable : Option Selectable)
  | group (transform : Option Transform) (key : Option String)
      (selectable : Option Selectable) (elements : List (Option Element))

/-- Modelled from the spec: makeGroup wraps a child list in a fresh group
node with no transform, key or metadata. -/
def makeGroup (elements : List (Option Element)) : Element :=
  .group none none none elements

/-- Functional form of the g.selectable = ... field assignment. -/
def setSelectable : Element → Selectable → Element
  | .prim pid _, s => .prim pid (some s)
  | .group tr k _ es, s => .group tr k (some s) es

/-- Functional form of the group.transform = ... field assignment (the
source only ever assigns a transform to a group node). -/
def setTransform : Element → Transform → Element
  | .prim pid sel, _ => .prim pid sel
  | .group _ k sel es, tr => .group (some tr) k sel es

/-- Functional form of the group.key = ... field assignment (the source
only ever assigns a key to a group node). -/
def setKey : Element → String → Element
  | .prim pid sel, _ => .prim pid sel
  | .group tr _ sel es, k => .group tr (some k) sel es

/-- The three interaction flags read from cls.object.properties of a
resolved mark drawing capability. -/
structure ObjectPropertiesFlags where
  enableTooltips : Bool
  enableContextMenu : Bool
  enableSelection : Bool
  deriving DecidableEq

/-- Modelled from the spec: the mark drawing capability resolved by the
manager; getGraphics takes the coordinate system, the offset, the optional
glyph index and the optional emphasized flag and yields zero-or-one
primitive.  The stateManager argument of the source is the ambient manager
and is dropped. -/
structure MarkClass where
  objectProperties : ObjectPropertiesFlags
  getGraphics : CoordinateSystem → Point → Option Nat → Option Bool → Option Element

/-- Modelled from the spec: the plot-segment drawing capability. -/
structure PlotSegmentClass where
  getCoordinateSystem : CoordinateSystem
  getPlotSegmentGraphics : Element → Element
  getPlotSegmentBackgroundGraphics : Element

/-- Modelled from the spec: the generic chart element drawing capability. -/
structure ChartElementClass where
  getGraphics : Element

/-- Modelled from the spec: the chart drawing capability. -/
structure ChartClass where
  getBackgroundGraphics : Option Element

/-- The dataset: a fixed backing sequence of rows. -/
abbrev Dataset := List Row

/-- Modelled from the spec: the state manager, exposing the current
dataset/chart/state triple and resolving drawing capabilities from state. -/
structure ChartStateManager where
  dataset : Dataset
  chart : Chart
  chartState : ChartState
  getMarkClass : MarkState → MarkClass
  getPlotSegmentClass : PlotSegmentState → PlotSegmentClass
  getChartElementClass : ChartElementState → ChartElementClass
  getChartClass : ChartState → ChartClass

/-- Modelled from the spec: zipArray pairs two sequences index-aligned,
truncating to the shorter one. -/
def zipArray {α β : Type} (a : List α) (b : List β) : List (α × β) :=
  a.zip b

/-- The body of the map inside renderGlyphMarks, processing one
(mark, markState) pair of a glyph instance.  The second component
instruments the control flow for the temporal claims: it is the offset
argument passed to the resolved getGraphics capability, or none when the
mark is invisible and the capability is never resolved nor invoked.  The
first component is the return value of the source. -/
def renderGlyphMark (manager : ChartStateManager) (plotSegment : ChartElement)
    (plotSegmentState : PlotSegmentState) (coordinateSystem : CoordinateSystem)
    (offset : Point) (state : GlyphState) (index : Nat)
    (pair : Mark × MarkState) : Option Element × Option Point :=
  if pair.1.visible = false then (none, none)
  else
    let cls := manager.getMarkClass pair.2
    match cls.getGraphics coordinateSystem offset (some index) state.emphasized with
    | some g =>
      (some (makeGroup [some (setSelectable g
        { plotSegment := plotSegment
          glyphIndex := index
          rowIndices := plotSegmentState.dataRowIndices.get? index
          enableTooltips := cls.objectProperties.enableTooltips
          enableContextMenu := cls.objectProperties.enableContextMenu
          enableSelection := cls.objectProperties.enableSelection })]),
        some offset)
    | none => (none, some offset)

/-- Translation of ChartRenderer.renderGlyphMarks: one output slot per
(mark, markState) pair of the template, in template order, nulls included.
Each entry also carries the invocation instrumentation of renderGlyphMark. -/
def renderGlyphMarks (manager : ChartStateManager) (plotSegment : ChartElement)
    (plotSegmentState : PlotSegmentState) (coordinateSystem : CoordinateSystem)
    (offset : Point) (glyph : Glyph) (state : GlyphState) (index : Nat) :
    List (Option Element × Option Point) :=
  (zipArray glyph.marks state.marks).map
    (renderGlyphMark manager plotSegment plotSegmentState coordinateSystem
      offset state index)

/-- The offset arithmetic of the glyph loop of renderChart: glyph position
attribute minus the anchor (x/y attributes of the first mark state). -/
def glyphOffset (glyphState : GlyphState) (anchor : MarkState) : Point :=
  ⟨glyphState.x - anchor.x, glyphState.y - anchor.y⟩

/-- One iteration of the glyph loop of renderChart: reading the anchor from
the first mark state (none models the JavaScript fault when a glyph state
has no marks) and invoking renderGlyphMarks with the computed offset. -/
def renderGlyphInstance (manager : ChartStateManager) (plotSegment : ChartElement)
    (plotSegmentState : PlotSegmentState) (coordinateSystem : CoordinateSystem)
    (glyph : Glyph) (p : Nat × GlyphState) :
    Option (List (Option Element × Option Point)) :=
  match p.2.marks.head? with
  | none => none
  | some anchor =>
    some (renderGlyphMarks manager plotSegment plotSegmentState coordinateSystem
      (glyphOffset p.2 anchor) glyph p.2 p.1)

/-- Mapping a fallible function over a list, aborting at the first fault;
models a JavaScript loop in which an iteration may throw. -/
def mapOpt {α β : Type} (f : α → Option β) : List α → Option (List β)
  | [] => some []
  | a :: l =>
    match f a, mapOpt f l with
    | some b, some r => some (b :: r)
    | _, _ => none

/-- The glyphArrays accumulation of renderChart: the per-instance mark-slot
sequences (instrumentation dropped), one per glyph state, in state order. -/
def buildGlyphArrays (manager : ChartStateManager) (plotSegment : ChartElement)
    (plotSegmentState : PlotSegmentState) (coordinateSystem : CoordinateSystem)
    (glyph : Glyph) : Option (List (List (Option Element))) :=
  (mapOpt
      (renderGlyphInstance manager plotSegment plotSegmentState coordinateSystem glyph)
      plotSegmentState.glyphs.enum).map
    (fun ls => ls.map (fun l => l.map (fun e => e.1)))

/-- Modelled from the spec: transpose turns the instance-by-mark matrix
into a mark-by-instance matrix, layer k holding the k-th slot of every
instance in instance order; row length is read off the first row, missing
entries of shorter rows yielding the undefined value (none). -/
def transpose (arr : List (List (Option Element))) : List (List (Option Element)) :=
  match arr with
  | [] => []
  | a0 :: _ =>
    (List.range a0.length).map (fun k => arr.map (fun row => row.getD k none))

/-- The glyph-layer group of renderChart: each transposed layer wrapped in
a group, the layer sequence wrapped in one group carrying the base
transform of the coordinate system. -/
def buildGlyphLayerGroup (glyphArrays : List (List (Option Element)))
    (t : Transform) : Element :=
  setTransform (makeGroup ((transpose glyphArrays).map (fun x => some (makeGroup x)))) t

/-- Modelled from the spec: getById resolves a glyph template by id. -/
def getById (glyphs : List Glyph) (id : String) : Option Glyph :=
  glyphs.find? (fun g => g._id == id)

/-- The per-element dispatch of the renderChart loop body, after the
visibility test.  none models the faults that abort composition (unknown
glyph template id, glyph state with no marks). -/
def renderChartElement (manager : ChartStateManager) (chart : Chart)
    (element : ChartElement) (elementState : ChartElementState) : Option Element :=
  match element.classID with
  | .plotSegmentKind =>
    let plotSegmentState := elementState.asPlotSegmentState
    match getById chart.glyphs element.glyph with
    | none => none
    | some mark =>
      let plotSegmentClass := manager.getPlotSegmentClass plotSegmentState
      let coordinateSystem := plotSegmentClass.getCoordinateSystem
      match buildGlyphArrays manager element plotSegmentState coordinateSystem mark with
      | none => none
      | some glyphArrays =>
        let gGlyphs := buildGlyphLayerGroup glyphArrays coordinateSystem.baseTransform
        let g := plotSegmentClass.getPlotSegmentGraphics gGlyphs
        let gBackgroundElements :=
          makeGroup [some plotSegmentClass.getPlotSegmentBackgroundGraphics]
        some (setKey (makeGroup [some gBackgroundElements, some g]) element._id)
  | .markKind =>
    let cs := mkCartesian ⟨0, 0⟩
    let elementClass := manager.getMarkClass elementState.asMarkState
    let g := elementClass.getGraphics cs ⟨0, 0⟩ none none
    some (setKey (makeGroup [g]) element._id)
  | .chartElementKind =>
    let elementClass := manager.getChartElementClass elementState
    let g := elementClass.getGraphics
    some (setKey (makeGroup [some g]) element._id)

/-- The chart background slot: a singleton if the chart drawing capability
returns a background primitive, else empty. -/
def chartBackgroundList (manager : ChartStateManager) (chartState : ChartState) :
    List Element :=
  match (manager.getChartClass chartState).getBackgroundGraphics with
  | some bg => [bg]
  | none => []

/-- The element/state pairs surviving the visibility test of the renderChart
loop, in specification order. -/
def visiblePairs (chart : Chart) (chartState : ChartState) :
    List (ChartElement × ChartElementState) :=
  (zipArray chart.elements chartState.elements).filter (fun p => p.1.visible)

/-- Translation of ChartRenderer.renderChart: background slot, then the
initially empty link group, then one group per visible element in
specification order; none when a visible element faults. -/
def renderChart (manager : ChartStateManager) (dataset : Dataset) (chart : Chart)
    (chartState : ChartState) : Option Element :=
  match mapOpt (fun p => renderChartElement manager chart p.1 p.2)
      (visiblePairs chart chartState) with
  | none => none
  | some rest =>
    some (makeGroup
      ((chartBackgroundList manager chartState ++ [makeGroup []] ++ rest).map some))

/-- Trace events instrumenting the render entry point: the point at which
renderChart has returned the fully assembled tree, and the invocation of
the caller-supplied afterRendered notification. -/
inductive RenderEvent where
  | chartAssembled
  | afterRendered
  deriving DecidableEq

/-- The optional RenderEvents bundle handed to the renderer; the field
stands for the opaque afterRendered callback. -/
structure RenderEvents where
  afterRenderedTag : Nat

/-- Translation of ChartRenderer.render, with an event trace: renderChart
is invoked on the current dataset/chart/state; on success the notification
fires once, strictly after assembly, iff a RenderEvents bundle was
supplied; on a fault the exception propagates and nothing fires. -/
def render (manager : ChartStateManager) (renderEvents : Option RenderEvents) :
    Option Element × List RenderEvent :=
  match renderChart manager manager.dataset manager.chart manager.chartState with
  | none => (none, [])
  | some group =>
    match renderEvents with
    | some _ => (some group, [.chartAssembled, .afterRendered])
    | none => (some group, [.chartAssembled])

/-! Concrete fixtures used by witnesses and counterexamples. -/

/-- A mark drawing capability that declines to draw and carries cleared
interaction flags. -/
def trivialMarkClass : MarkClass :=
  ⟨⟨false, false, false⟩, fun _ _ _ _ => none⟩

/-- A plot-segment drawing capability passing the glyph layer group through
unchanged. -/
def trivialPlotSegmentClass : PlotSegmentClass :=
  ⟨mkCartesian ⟨0, 0⟩, fun g => g, Element.prim 0 none⟩

/-- A chart-element drawing capability yielding a fixed primitive. -/
def trivialChartElementClass : ChartElementClass :=
  ⟨Element.prim 0 none⟩

/-- A chart drawing capability without a background. -/
def trivialChartClass : ChartClass :=
  ⟨none⟩

/-- A manager over an empty dataset, chart and state, resolving every
capability to the trivial ones. -/
def emptyManager : ChartStateManager :=
  ⟨[], ⟨[], []⟩, ⟨[]⟩, fun _ => trivialMarkClass, fun _ => trivialPlotSegmentClass,
    fun _ => trivialChartElementClass, fun _ => trivialChartClass⟩

/-- The facet example rows of the spec. -/
def exampleRows : List Row :=
  [[("c", DValue.str "a")], [("c", DValue.str "b")], [("c", DValue.str "a")]]

/-- A visible plot-segment element referencing glyph template g1, with all
interaction flags set on the plot-segment object. -/
def psElement : ChartElement :=
  ⟨"ps1", ElementKind.plotSegmentKind, true, "g1", true, true, true⟩

/-- A glyph template with a single visible mark. -/
def oneMarkGlyph : Glyph :=
  ⟨"g1", [⟨true⟩]⟩

/-- A plot-segment state with no glyph instances. -/
def noInstanceState : PlotSegmentState :=
  ⟨[], []⟩

/-- A glyph state with one mark state. -/
def oneMarkGlyphState : GlyphState :=
  ⟨3, 4, none, [⟨1, 1, 0⟩]⟩

/-- A plot-segment state with exactly one glyph instance. -/
def oneInstanceState : PlotSegmentState :=
  ⟨[oneMarkGlyphState], [[0]]⟩

/-- A mark drawing capability that always draws primitive 7 and carries
cleared interaction flags, for the metadata claims. -/
def primSevenMarkClass : MarkClass :=
  ⟨⟨false, false, false⟩, fun _ _ _ _ => some (Element.prim 7 none)⟩

/-- The empty manager with marks resolved to primSevenMarkClass. -/
def primSevenManager : ChartStateManager :=
  { emptyManager with getMarkClass := fun _ => primSevenMarkClass }

/-- A glyph state at the origin with one mark state, for the metadata
claims. -/
def originGlyphState : GlyphState :=
  ⟨0, 0, none, [⟨0, 0, 0⟩]⟩

/-- A plot-segment state whose single instance represents rows 1 and 2. -/
def rowsOneTwoState : PlotSegmentState :=
  ⟨[originGlyphState], [[1, 2]]⟩

/-- The selectable metadata a node of the concrete plot-segment actually
carries. -/
def selObserved : Selectable :=
  ⟨psElement, 0, some [1, 2], false, false, false⟩

/-- The selectable metadata the claim would predict at the same input, with
the interaction flags read from the plot-segment object. -/
def selClaimed : Selectable :=
  ⟨psElement, 0, some [1, 2], psElement.enableTooltips, psElement.enableContextMenu,
    psElement.enableSelection⟩

/-- The selectable metadata of a node, whichever constructor it is. -/
def elementSelectable : Element → Option Selectable
  | .prim _ s => s
  | .group _ _ s _ => s

/-- The selectable metadata of the single wrapped child of a mark slot. -/
def slotInnerSelectable : Option Element × Option Point → Option Selectable
  | (some (.group _ _ _ [some inner]), _) => elementSelectable inner
  | _ => none

/-- The glyph state of the offset example of the spec: position (12, 9),
anchor mark at (5, 5). -/
def offsetExampleGlyphState : GlyphState :=
  ⟨12, 9, none, [⟨5, 5, 0⟩]⟩

/-- A visible standalone mark element. -/
def markElement : ChartElement :=
  ⟨"m1", ElementKind.markKind, true, "", false, false, false⟩

/-- An element state for the standalone mark element. -/
def markElementState : ChartElementState :=
  ChartElementState.markState ⟨0, 0, 0⟩

/-- A glyph template whose single mark is invisible. -/
def invisibleMarkGlyph : Glyph :=
  ⟨"g2", [⟨false⟩]⟩

/-- A visible generic chart element. -/
def visibleChartElement : ChartElement :=
  ⟨"e1", ElementKind.chartElementKind, true, "", false, false, false⟩

/-- An invisible generic chart element. -/
def invisibleChartElement : ChartElement :=
  ⟨"e2", ElementKind.chartElementKind, false, "", false, false, false⟩

/-- A two-element chart whose second element is invisible. -/
def twoElementChart : Chart :=
  ⟨[visibleChartElement, invisibleChartElement], []⟩

/-- The element states for the two-element chart. -/
def twoElementChartState : ChartState :=
  ⟨[ChartElementState.chartElementState 0, ChartElementState.chartElementState 1]⟩

/-! Claim theorems. -/

/-- Claim C8: facetRows called with no columns returns exactly one group,
the input index list itself in original order; quantification over a second
arbitrary row collection shows the result is independent of the rows, which
are never read on this path. -/
theorem facetRows_no_columns (rows rows2 : List Row) (indices : List Nat) :
    facetRows rows indices none = [indices] ∧
    facetRows rows indices none = facetRows rows2 indices none :=
  ⟨rfl, rfl⟩

/-- Claim C10: for a visible chart element of mark kind, the compositor
pushes an element-keyed group with exactly one child, the raw value
returned by the mark drawing capability (null included as a child), with no
selectable metadata and a null glyph index passed to the capability. -/
theorem renderChartElement_markKind (m : ChartStateManager) (ch : Chart)
    (e : ChartElement) (es : ChartElementState)
    (h : e.classID = ElementKind.markKind) :
    renderChartElement m ch e es =
      some (Element.group none (some e._id) none
        [(m.getMarkClass es.asMarkState).getGraphics (mkCartesian ⟨0, 0⟩) ⟨0, 0⟩
          none none]) := by
  unfold renderChartElement
  rw [h]
  rfl

/-- Witness for C10: at a concrete standalone mark element whose capability
declines to draw, the output group still has exactly one child, the null. -/
theorem renderChartElement_markKind_witness :
    markElement.classID = ElementKind.markKind ∧
    (emptyManager.getMarkClass markElementState.asMarkState).getGraphics
        (mkCartesian ⟨0, 0⟩) ⟨0, 0⟩ none none = none ∧
    renderChartElement emptyManager ⟨[], []⟩ markElement markElementState =
      some (Element.group none (some "m1") none [none]) :=
  ⟨rfl, rfl,
    renderChartElement_markKind emptyManager ⟨[], []⟩ markElement markElementState rfl⟩

/-- Claim C7: when a notification is supplied and assembly succeeds, the
trace is exactly assembly followed by one notification; on the failure path
no notification fires; with no notification supplied none fires either. -/
theorem render_afterRendered_once (m : ChartStateManager) (ev : RenderEvents) :
    (∀ g, (render m (some ev)).1 = some g →
      (render m (some ev)).2 = [RenderEvent.chartAssembled, RenderEvent.afterRendered]) ∧
    ((render m (some ev)).1 = none →
      RenderEvent.afterRendered ∉ (render m (some ev)).2) ∧
    RenderEvent.afterRendered ∉ (render m none).2 := by
  rcases hr : renderChart m m.dataset m.chart m.chartState with _ | g <;>
    simp [render, hr]

/-- Witness for C7: on a chart with zero visible elements the render entry
point succeeds and the notification fires exactly once, after assembly. -/
theorem render_afterRendered_once_witness :
    (render emptyManager (some ⟨0⟩)).1 = some (makeGroup [some (makeGroup [])]) ∧
    (render emptyManager (some ⟨0⟩)).2 =
      [RenderEvent.chartAssembled, RenderEvent.afterRendered] :=
  ⟨rfl,
    (render_afterRendered_once emptyManager ⟨0⟩).1 (makeGroup [some (makeGroup [])]) rfl⟩

/-- Claim C5: an invisible mark yields a null slot and its drawing
capability is never resolved nor invoked (instrumentation component none);
a visible mark whose capability declines to draw also yields a null slot. -/
theorem renderGlyphMarks_invisible_null (m : ChartStateManager) (ps : ChartElement)
    (psState : PlotSegmentState) (cs : CoordinateSystem) (off : Point) (glyph : Glyph)
    (gs : GlyphState) (idx k : Nat) (mark : Mark) (markState : MarkState)
    (hk : (zipArray glyph.marks gs.marks).get? k = some (mark, markState)) :
    (mark.visible = false →
      (renderGlyphMarks m ps psState cs off glyph gs idx).get? k = some (none, none)) ∧
    (mark.visible = true →
      (m.getMarkClass markState).getGraphics cs off (some idx) gs.emphasized = none →
      (renderGlyphMarks m ps psState cs off glyph gs idx).get? k =
        some (none, some off)) := by
  have hmap : (renderGlyphMarks m ps psState cs off glyph gs idx).get? k =
      some (renderGlyphMark m ps psState cs off gs idx (mark, markState)) := by
    unfold renderGlyphMarks
    rw [List.get?_map, hk]
    rfl
  constructor
  · intro hv
    rw [hmap]
    simp [renderGlyphMark, hv]
  · intro hv hg
    rw [hmap]
    simp [renderGlyphMark, hv, hg]

/-- Witness for C5: a concrete invisible mark produces a null slot with no
capability invocation. -/
theorem renderGlyphMarks_invisible_null_witness :
    (zipArray invisibleMarkGlyph.marks originGlyphState.marks).get? 0 =
      some (⟨false⟩, ⟨0, 0, 0⟩) ∧
    (renderGlyphMarks emptyManager psElement rowsOneTwoState (mkCartesian ⟨0, 0⟩)
        ⟨0, 0⟩ invisibleMarkGlyph originGlyphState 0).get? 0 = some (none, none) :=
  ⟨rfl,
    (renderGlyphMarks_invisible_null emptyManager psElement rowsOneTwoState
      (mkCartesian ⟨0, 0⟩) ⟨0, 0⟩ invisibleMarkGlyph originGlyphState 0 0
      ⟨false⟩ ⟨0, 0, 0⟩ rfl).1 rfl⟩

/-- Claim C6: the offset of a glyph instance is the glyph position minus
the anchor (x/y of the first mark state), the glyph mark compositor is
invoked with exactly that offset, and every mark drawing invocation of the
instance receives that same offset unchanged. -/
theorem renderGlyphInstance_offset_anchor (m : ChartStateManager) (ps : ChartElement)
    (psState : PlotSegmentState) (cs : CoordinateSystem) (glyph : Glyph) (j : Nat)
    (gs : GlyphState) (anchor : MarkState) (h : gs.marks.head? = some anchor) :
    glyphOffset gs anchor = ⟨gs.x - anchor.x, gs.y - anchor.y⟩ ∧
    renderGlyphInstance m ps psState cs glyph (j, gs) =
      some (renderGlyphMarks m ps psState cs (glyphOffset gs anchor) glyph gs j) ∧
    ∀ e ∈ renderGlyphMarks m ps psState cs (glyphOffset gs anchor) glyph gs j,
      e.2 = none ∨ e.2 = some (glyphOffset gs anchor) := by
  refine ⟨rfl, ?_, ?_⟩
  · simp [renderGlyphInstance, h]
  · intro e he
    unfold renderGlyphMarks zipArray at he
    rcases List.mem_map.mp he with ⟨pair, hp, rfl⟩
    by_cases hv : pair.1.visible = false
    · left
      simp [renderGlyphMark, hv]
    · rcases hg : (m.getMarkClass pair.2).getGraphics cs (glyphOffset gs anchor)
          (some j) gs.emphasized with _ | prim
      · right
        simp [renderGlyphMark, hv, hg]
      · right
        simp [renderGlyphMark, hv, hg]

/-- Witness for C6: the spec example, anchor (5, 5) and glyph position
(12, 9), gives offset (7, 4), passed into every mark invocation. -/
theorem renderGlyphInstance_offset_anchor_witness :
    offsetExampleGlyphState.marks.head? = some ⟨5, 5, 0⟩ ∧
    glyphOffset offsetExampleGlyphState ⟨5, 5, 0⟩ = ⟨7, 4⟩ ∧
    renderGlyphInstance emptyManager psElement rowsOneTwoState (mkCartesian ⟨0, 0⟩)
        oneMarkGlyph (0, offsetExampleGlyphState) =
      some (renderGlyphMarks emptyManager psElement rowsOneTwoState (mkCartesian ⟨0, 0⟩)
        (glyphOffset offsetExampleGlyphState ⟨5, 5, 0⟩) oneMarkGlyph
        offsetExampleGlyphState 0) ∧
    ∀ e ∈ renderGlyphMarks emptyManager psElement rowsOneTwoState (mkCartesian ⟨0, 0⟩)
        (glyphOffset offsetExampleGlyphState ⟨5, 5, 0⟩) oneMarkGlyph
        offsetExampleGlyphState 0,
      e.2 = none ∨ e.2 = some (glyphOffset offsetExampleGlyphState ⟨5, 5, 0⟩) := by
  have h := renderGlyphInstance_offset_anchor emptyManager psElement rowsOneTwoState
    (mkCartesian ⟨0, 0⟩) oneMarkGlyph 0 offsetExampleGlyphState ⟨5, 5, 0⟩ rfl
  exact ⟨rfl, by decide, h.2.1, h.2.2⟩

/-- Counterexample for C4: at a concrete input whose plot-segment carries
all three interaction flags set while the resolved mark class object
carries them cleared, the attached metadata holds the cleared flags, not
the flags carried by the owning plot-segment as the claim states. -/
theorem glyphMark_selectable_flags_counterexample :
    ((renderGlyphMarks primSevenManager psElement rowsOneTwoState (mkCartesian ⟨0, 0⟩)
        ⟨0, 0⟩ oneMarkGlyph originGlyphState 0).map slotInnerSelectable) =
      [some selObserved] ∧
    psElement.enableTooltips = true ∧ psElement.enableContextMenu = true ∧
    psElement.enableSelection = true ∧
    some selObserved ≠ some selClaimed :=
  ⟨rfl, rfl, rfl, rfl, by decide⟩

/-- Claim C4 (amended): every non-null slot carries exactly the metadata of
its owning plot-segment and glyph index — the plot-segment reference, the
ordinal, the row indices looked up from that plot-segment state at that
index — together with the three flags read from the resolved mark class
object properties (not from the plot-segment). -/
theorem renderGlyphMark_selectable_source (m : ChartStateManager) (ps : ChartElement)
    (psState : PlotSegmentState) (cs : CoordinateSystem) (off : Point) (gs : GlyphState)
    (idx : Nat) (pair : Mark × MarkState) (g : Element)
    (h : (renderGlyphMark m ps psState cs off gs idx pair).1 = some g) :
    ∃ prim,
      (m.getMarkClass pair.2).getGraphics cs off (some idx) gs.emphasized = some prim ∧
      g = makeGroup [some (setSelectable prim
        ⟨ps, idx, psState.dataRowIndices.get? idx,
          (m.getMarkClass pair.2).objectProperties.enableTooltips,
          (m.getMarkClass pair.2).objectProperties.enableContextMenu,
          (m.getMarkClass pair.2).objectProperties.enableSelection⟩)] := by
  by_cases hv : pair.1.visible = false
  · simp [renderGlyphMark, hv] at h
  · rcases hg : (m.getMarkClass pair.2).getGraphics cs off (some idx) gs.emphasized
        with _ | prim
    · simp [renderGlyphMark, hv, hg] at h
    · refine ⟨prim, rfl, ?_⟩
      simp [renderGlyphMark, hv, hg] at h
      rw [List.get?_eq_getElem?]
      exact h.symm

/-- Witness for C4 (amended): a concrete slot carries exactly the computed
metadata of its owning plot-segment and glyph index. -/
theorem renderGlyphMark_selectable_source_witness :
    (renderGlyphMark primSevenManager psElement rowsOneTwoState (mkCartesian ⟨0, 0⟩)
        ⟨0, 0⟩ originGlyphState 0 (⟨true⟩, ⟨0, 0, 0⟩)).1 =
      some (makeGroup [some (setSelectable (Element.prim 7 none) selObserved)]) ∧
    ∃ prim,
      (primSevenManager.getMarkClass (⟨0, 0, 0⟩ : MarkState)).getGraphics
          (mkCartesian ⟨0, 0⟩) ⟨0, 0⟩ (some 0) originGlyphState.emphasized = some prim ∧
      makeGroup [some (setSelectable (Element.prim 7 none) selObserved)] =
        makeGroup [some (setSelectable prim
          ⟨psElement, 0, rowsOneTwoState.dataRowIndices.get? 0,
            (primSevenManager.getMarkClass
              (⟨0, 0, 0⟩ : MarkState)).objectProperties.enableTooltips,
            (primSevenManager.getMarkClass
              (⟨0, 0, 0⟩ : MarkState)).objectProperties.enableContextMenu,
            (primSevenManager.getMarkClass
              (⟨0, 0, 0⟩ : MarkState)).objectProperties.enableSelection⟩)] :=
  ⟨rfl,
    renderGlyphMark_selectable_source primSevenManager psElement rowsOneTwoState
      (mkCartesian ⟨0, 0⟩) ⟨0, 0⟩ originGlyphState 0 (⟨true⟩, ⟨0, 0, 0⟩)
      (makeGroup [some (setSelectable (Element.prim 7 none) selObserved)]) rfl⟩

/-- Characterisation of the fallible map: success is pointwise success. -/
theorem mapOpt_eq_some_iff {α β : Type} (f : α → Option β) (l : List α) :
    ∀ r : List β,
      mapOpt f l = some r ↔ List.Forall₂ (fun a b => f a = some b) l r := by
  induction l with
  | nil =>
    intro r
    constructor
    · intro h
      simp [mapOpt] at h
      subst h
      exact List.Forall₂.nil
    · intro h
      cases h
      rfl
  | cons a l ih =>
    intro r
    constructor
    · intro h
      simp only [mapOpt] at h
      rcases ha : f a with _ | b <;> rcases hl : mapOpt f l with _ | r2 <;>
        rw [ha, hl] at h <;> simp at h
      subst h
      exact List.Forall₂.cons ha ((ih r2).mp hl)
    · intro h
      cases h with
      | cons hab htail =>
        rename_i b r2
        simp only [mapOpt]
        rw [hab, (ih r2).mpr htail]

/-- Every group produced for a chart element is keyed by the element id. -/
theorem renderChartElement_key (m : ChartStateManager) (ch : Chart)
    (e : ChartElement) (es : ChartElementState) (g : Element)
    (h : renderChartElement m ch e es = some g) :
    ∃ tr sel elems, g = Element.group tr (some e._id) sel elems := by
  unfold renderChartElement at h
  split at h
  · split at h
    · cases h
    · dsimp only at h
      split at h
      · cases h
      · exact ⟨none, none, _, (Option.some.inj h).symm⟩
  · exact ⟨none, none, _, (Option.some.inj h).symm⟩
  · exact ⟨none, none, _, (Option.some.inj h).symm⟩

/-- Claim C2: a successfully composed root group is the background slot
(present iff the chart capability returns a background), the initially
empty link group, and then exactly one element-keyed group per visible
chart element, in specification order; invisible elements contribute no
child at all. -/
theorem renderChart_root_structure (m : ChartStateManager) (ds : Dataset) (ch : Chart)
    (st : ChartState) (root : Element) (h : renderChart m ds ch st = some root) :
    ∃ rest : List Element,
      mapOpt (fun p => renderChartElement m ch p.1 p.2) (visiblePairs ch st) =
        some rest ∧
      root = makeGroup
        ((chartBackgroundList m st ++ [makeGroup []] ++ rest).map some) ∧
      rest.length = (visiblePairs ch st).length ∧
      List.Forall₂ (fun (p : ChartElement × ChartElementState) (g : Element) =>
          ∃ tr sel elems, g = Element.group tr (some p.1._id) sel elems)
        (visiblePairs ch st) rest := by
  unfold renderChart at h
  rcases hm : mapOpt (fun p => renderChartElement m ch p.1 p.2) (visiblePairs ch st)
      with _ | rest <;> rw [hm] at h
  · simp at h
  · simp only [Option.some.injEq] at h
    refine ⟨rest, hm, h.symm, ?_, ?_⟩
    · exact ((mapOpt_eq_some_iff _ _ rest).mp hm).length_eq.symm
    · refine ((mapOpt_eq_some_iff _ _ rest).mp hm).imp ?_
      intro p g hg
      have hg2 : renderChartElement m ch p.1 p.2 = some g := hg
      exact renderChartElement_key m ch p.1 p.2 g hg2

/-- Witness for C2: a chart with one visible and one invisible element
composes a root with the link slot and exactly one element-keyed group,
nothing for the invisible element. -/
theorem renderChart_root_structure_witness :
    renderChart emptyManager [] twoElementChart twoElementChartState =
      some (makeGroup [some (makeGroup []),
        some (Element.group none (some "e1") none [some (Element.prim 0 none)])]) ∧
    ∃ rest : List Element,
      mapOpt (fun p => renderChartElement emptyManager twoElementChart p.1 p.2)
          (visiblePairs twoElementChart twoElementChartState) = some rest ∧
      makeGroup [some (makeGroup []),
          some (Element.group none (some "e1") none [some (Element.prim 0 none)])] =
        makeGroup ((chartBackgroundList emptyManager twoElementChartState ++
          [makeGroup []] ++ rest).map some) ∧
      rest.length = (visiblePairs twoElementChart twoElementChartState).length ∧
      List.Forall₂ (fun (p : ChartElement × ChartElementState) (g : Element) =>
          ∃ tr sel elems, g = Element.group tr (some p.1._id) sel elems)
        (visiblePairs twoElementChart twoElementChartState) rest :=
  ⟨rfl,
    renderChart_root_structure emptyManager [] twoElementChart twoElementChartState
      (makeGroup [some (makeGroup []),
        some (Element.group none (some "e1") none [some (Element.prim 0 none)])]) rfl⟩

/-- The per-instance sequences are in bijection with the glyph states. -/
theorem buildGlyphArrays_length (m : ChartStateManager) (ps : ChartElement)
    (psState : PlotSegmentState) (cs : CoordinateSystem) (glyph : Glyph)
    (arrs : List (List (Option Element)))
    (hb : buildGlyphArrays m ps psState cs glyph = some arrs) :
    arrs.length = psState.glyphs.length := by
  unfold buildGlyphArrays at hb
  rcases ho : mapOpt (renderGlyphInstance m ps psState cs glyph) psState.glyphs.enum
      with _ | ls <;> rw [ho] at hb
  · simp at hb
  · simp only [Option.map_some', Option.some.injEq] at hb
    have hlen := ((mapOpt_eq_some_iff _ _ ls).mp ho).length_eq
    rw [← hb, List.length_map, ← hlen, List.enum_length]

/-- Counterexample for C1: a plot-segment with zero glyph instances
vacuously satisfies the premise of the claim at M = 1, yet its glyph-layer
group contains zero layer groups, not one. -/
theorem glyphLayers_empty_counterexample :
    buildGlyphArrays emptyManager psElement noInstanceState (mkCartesian ⟨0, 0⟩)
        oneMarkGlyph = some [] ∧
    (∀ a ∈ ([] : List (List (Option Element))), a.length = 1) ∧
    buildGlyphLayerGroup [] (mkCartesian ⟨0, 0⟩).baseTransform =
      Element.group (some (mkCartesian ⟨0, 0⟩).baseTransform) none none [] ∧
    (transpose ([] : List (List (Option Element)))).length ≠ 1 :=
  ⟨rfl, by simp, rfl, by decide⟩

/-- Claim C1 (amended): for a plot-segment with at least one glyph instance
whose instances each produce a mark-slot sequence of the same length M, the
glyph-layer group has exactly M layer groups, and layer k holds, in
original instance order, exactly the k-th slot of every instance, nulls
preserved in position. -/
theorem glyphLayerGroup_layers (m : ChartStateManager) (ps : ChartElement)
    (psState : PlotSegmentState) (cs : CoordinateSystem) (glyph : Glyph)
    (arrs : List (List (Option Element))) (M : Nat) (t : Transform)
    (hb : buildGlyphArrays m ps psState cs glyph = some arrs)
    (hne : arrs ≠ []) (hlen : ∀ a ∈ arrs, a.length = M) :
    arrs.length = psState.glyphs.length ∧
    buildGlyphLayerGroup arrs t =
      Element.group (some t) none none
        ((transpose arrs).map (fun x => some (makeGroup x))) ∧
    (transpose arrs).length = M ∧
    ∀ k, k < M →
      (transpose arrs).getD k [] = arrs.map (fun a => a.getD k none) := by
  obtain ⟨a0, rest, rfl⟩ := List.exists_cons_of_ne_nil hne
  have ha0 : a0.length = M := hlen a0 (List.mem_cons_self a0 rest)
  refine ⟨buildGlyphArrays_length m ps psState cs glyph _ hb, rfl, ?_, ?_⟩
  · simp [transpose, ha0]
  · intro k hk
    have hget : (transpose (a0 :: rest)).get? k =
        some ((a0 :: rest).map (fun a => a.getD k none)) := by
      unfold transpose
      rw [List.get?_map, List.get?_range (by rw [ha0]; exact hk)]
      rfl
    rw [List.getD_eq_get?, hget]
    rfl

/-- Witness for C1 (amended): one instance with a one-slot sequence yields
exactly one layer group holding that slot. -/
theorem glyphLayerGroup_layers_witness :
    buildGlyphArrays emptyManager psElement oneInstanceState (mkCartesian ⟨0, 0⟩)
        oneMarkGlyph = some [[none]] ∧
    ([[none]] : List (List (Option Element))) ≠ [] ∧
    (∀ a ∈ ([[none]] : List (List (Option Element))), a.length = 1) ∧
    (([[none]] : List (List (Option Element))).length =
      oneInstanceState.glyphs.length ∧
    buildGlyphLayerGroup [[none]] (mkCartesian ⟨0, 0⟩).baseTransform =
      Element.group (some (mkCartesian ⟨0, 0⟩).baseTransform) none none
        ((transpose [[none]]).map (fun x => some (makeGroup x))) ∧
    (transpose ([[none]] : List (List (Option Element)))).length = 1 ∧
    ∀ k, k < 1 →
      (transpose ([[none]] : List (List (Option Element)))).getD k [] =
        ([[none]] : List (List (Option Element))).map (fun a => a.getD k none)) := by
  have h := glyphLayerGroup_layers emptyManager psElement oneInstanceState
    (mkCartesian ⟨0, 0⟩) oneMarkGlyph [[none]] 1 (mkCartesian ⟨0, 0⟩).baseTransform
    rfl (by simp) (by simp)
  exact ⟨rfl, by simp, by simp, h⟩

/-- The keys of a cons cell of the facet map. -/
theorem gKeys_cons {κ : Type} (p : κ × List Nat) (m : List (κ × List Nat)) :
    gKeys (p :: m) = p.1 :: gKeys m := rfl

/-- Prepending an element with a key distinct from k keeps filters equal. -/
theorem filter_cons_of_ne {κ : Type} [DecidableEq κ] (f : Nat → κ) (i : Nat)
    (l : List Nat) (k : κ) (h : f i ≠ k) :
    (i :: l).filter (fun x => decide (f x = k)) =
      l.filter (fun x => decide (f x = k)) := by
  simp [List.filter_cons, h]

/-- Prepending an element whose key is k prepends it to the filter. -/
theorem filter_cons_of_eq {κ : Type} [DecidableEq κ] (f : Nat → κ) (i : Nat)
    (l : List Nat) (k : κ) (h : f i = k) :
    (i :: l).filter (fun x => decide (f x = k)) =
      i :: l.filter (fun x => decide (f x = k)) := by
  simp [List.filter_cons, h]

/-- Entries whose keys differ from the key of i are unaffected by also
filtering for i. -/
theorem map_filter_shift {κ : Type} [DecidableEq κ] (f : Nat → κ) (i : Nat)
    (l : List Nat) (m : List (κ × List Nat)) (h : ∀ p ∈ m, p.1 ≠ f i) :
    m.map (fun p => (p.1, p.2 ++ (i :: l).filter (fun x => decide (f x = p.1)))) =
      m.map (fun p => (p.1, p.2 ++ l.filter (fun x => decide (f x = p.1)))) := by
  apply List.map_congr_left
  intro p hp
  rw [filter_cons_of_ne f i l p.1 (fun he => h p hp he.symm)]

/-- Keys emitted by newKeysAux are not among the already seen keys. -/
theorem newKeysAux_not_mem_seen {κ : Type} [DecidableEq κ] (f : Nat → κ)
    (l : List Nat) : ∀ (seen : List κ) (k : κ),
      k ∈ newKeysAux f seen l → k ∉ seen := by
  induction l with
  | nil =>
    intro seen k hk
    simp [newKeysAux] at hk
  | cons i rest ih =>
    intro seen k hk
    simp only [newKeysAux] at hk
    by_cases hi : f i ∈ seen
    · rw [if_pos hi] at hk
      exact ih seen k hk
    · rw [if_neg hi] at hk
      rcases List.mem_cons.mp hk with rfl | hk2
      · exact hi
      · intro hks
        exact ih (f i :: seen) k hk2 (List.mem_cons_of_mem _ hks)

/-- Every key emitted by newKeysAux occurs in the traversal. -/
theorem newKeysAux_exists_mem {κ : Type} [DecidableEq κ] (f : Nat → κ)
    (l : List Nat) : ∀ (seen : List κ) (k : κ), k ∈ newKeysAux f seen l →
      ∃ i, i ∈ l ∧ f i = k := by
  induction l with
  | nil =>
    intro seen k hk
    simp [newKeysAux] at hk
  | cons i rest ih =>
    intro seen k hk
    simp only [newKeysAux] at hk
    by_cases hi : f i ∈ seen
    · rw [if_pos hi] at hk
      obtain ⟨j, hj, hfj⟩ := ih seen k hk
      exact ⟨j, List.mem_cons_of_mem _ hj, hfj⟩
    · rw [if_neg hi] at hk
      rcases List.mem_cons.mp hk with rfl | hk2
      · exact ⟨i, List.mem_cons_self i rest, rfl⟩
      · obtain ⟨j, hj, hfj⟩ := ih (f i :: seen) k hk2
        exact ⟨j, List.mem_cons_of_mem _ hj, hfj⟩

/-- Every unseen key of the traversal is emitted by newKeysAux. -/
theorem newKeysAux_complete {κ : Type} [DecidableEq κ] (f : Nat → κ)
    (l : List Nat) : ∀ (seen : List κ) (i : Nat), i ∈ l → f i ∉ seen →
      f i ∈ newKeysAux f seen l := by
  induction l with
  | nil =>
    intro seen i hi
    simp at hi
  | cons j rest ih =>
    intro seen i hi hns
    simp only [newKeysAux]
    by_cases hj : f j ∈ seen
    · rw [if_pos hj]
      rcases List.mem_cons.mp hi with rfl | hi2
      · exact absurd hj hns
      · exact ih seen i hi2 hns
    · rw [if_neg hj]
      by_cases hfij : f i = f j
      · rw [hfij]
        exact List.mem_cons_self _ _
      · rcases List.mem_cons.mp hi with rfl | hi2
        · exact absurd rfl hfij
        · refine List.mem_cons_of_mem _ (ih (f j :: seen) i hi2 ?_)
          intro hm
          rcases List.mem_cons.mp hm with h1 | h2
          · exact hfij h1
          · exact hns h2

/-- The keys emitted by newKeysAux are pairwise distinct. -/
theorem newKeysAux_nodup {κ : Type} [DecidableEq κ] (f : Nat → κ)
    (l : List Nat) : ∀ (seen : List κ), (newKeysAux f seen l).Nodup := by
  induction l with
  | nil =>
    intro seen
    simp [newKeysAux]
  | cons i rest ih =>
    intro seen
    simp only [newKeysAux]
    by_cases hi : f i ∈ seen
    · rw [if_pos hi]
      exact ih seen
    · rw [if_neg hi]
      refine List.nodup_cons.mpr ⟨?_, ih (f i :: seen)⟩
      intro hmem
      exact newKeysAux_not_mem_seen f rest (f i :: seen) (f i) hmem
        (List.mem_cons_self _ _)

/-- newKeysAux only depends on the seen keys as a set. -/
theorem newKeysAux_congr {κ : Type} [DecidableEq κ] (f : Nat → κ)
    (l : List Nat) : ∀ (s1 s2 : List κ), (∀ x, x ∈ s1 ↔ x ∈ s2) →
      newKeysAux f s1 l = newKeysAux f s2 l := by
  induction l with
  | nil =>
    intro s1 s2 hs
    rfl
  | cons i rest ih =>
    intro s1 s2 hs
    simp only [newKeysAux]
    by_cases hi : f i ∈ s1
    · rw [if_pos hi, if_pos ((hs (f i)).mp hi)]
      exact ih s1 s2 hs
    · rw [if_neg hi, if_neg (fun h => hi ((hs (f i)).mpr h))]
      refine congrArg (List.cons (f i)) (ih _ _ ?_)
      intro x
      simp only [List.mem_cons]
      exact or_congr Iff.rfl (hs x)

/-- Inserting a fresh key appends a new singleton group at the end. -/
theorem groupInsert_not_mem {κ : Type} [DecidableEq κ] (key : κ) (i : Nat) :
    ∀ (m : List (κ × List Nat)), key ∉ gKeys m →
      groupInsert key i m = m ++ [(key, [i])] := by
  intro m
  induction m with
  | nil =>
    intro h
    rfl
  | cons p rest ih =>
    intro h
    obtain ⟨k0, g0⟩ := p
    rw [gKeys_cons, List.mem_cons] at h
    push_neg at h
    have hne : ¬(k0 = key) := fun he => h.1 he.symm
    simp only [groupInsert, if_neg hne, List.cons_append]
    exact congrArg (List.cons (k0, g0)) (ih h.2)

/-- Inserting a present key appends the index to exactly its group; keyed
filters over the extended traversal absorb the insertion. -/
theorem groupInsert_mem_map {κ : Type} [DecidableEq κ] (f : Nat → κ) (i : Nat)
    (l : List Nat) :
    ∀ (m : List (κ × List Nat)), (gKeys m).Nodup → f i ∈ gKeys m →
      (groupInsert (f i) i m).map
          (fun p => (p.1, p.2 ++ l.filter (fun x => decide (f x = p.1)))) =
        m.map
          (fun p => (p.1, p.2 ++ (i :: l).filter (fun x => decide (f x = p.1)))) ∧
      gKeys (groupInsert (f i) i m) = gKeys m := by
  intro m
  induction m with
  | nil =>
    intro hnd h
    simp [gKeys] at h
  | cons p rest ih =>
    intro hnd h
    obtain ⟨k0, g0⟩ := p
    rw [gKeys_cons] at hnd
    have hnd2 := List.nodup_cons.mp hnd
    by_cases he : k0 = f i
    · have hrest : ∀ q ∈ rest, q.1 ≠ f i := by
        intro q hq hqe
        apply hnd2.1
        show k0 ∈ gKeys rest
        rw [he, ← hqe]
        exact List.mem_map_of_mem (fun p => p.1) hq
      constructor
      · simp only [groupInsert, if_pos he, List.map_cons]
        rw [filter_cons_of_eq f i l k0 he.symm, map_filter_shift f i l rest hrest,
          List.append_cons g0 i (List.filter (fun x => decide (f x = k0)) l)]
      · simp [groupInsert, if_pos he, gKeys_cons]
    · have h2 : f i ∈ gKeys rest := by
        rcases List.mem_cons.mp (gKeys_cons (k0, g0) rest ▸ h) with h1 | h1
        · exact absurd h1.symm he
        · exact h1
      obtain ⟨ihmap, ihkeys⟩ := ih hnd2.2 h2
      constructor
      · simp only [groupInsert, if_neg he, List.map_cons]
        rw [filter_cons_of_ne f i l k0 (fun hx => he hx.symm), ihmap]
      · simp only [groupInsert, if_neg he, gKeys_cons]
        rw [ihkeys]

/-- Correctness of the facetRows accumulation loop: starting from a map
with pairwise distinct keys, the final map extends each existing group by
the traversal-order filter of its key and appends, in first-seen order, one
filter group per new key. -/
theorem foldIns_eq {κ : Type} [DecidableEq κ] (f : Nat → κ) :
    ∀ (l : List Nat) (m : List (κ × List Nat)), (gKeys m).Nodup →
      foldIns f m l =
        m.map (fun p => (p.1, p.2 ++ l.filter (fun x => decide (f x = p.1)))) ++
          (newKeysAux f (gKeys m) l).map
            (fun k => (k, l.filter (fun x => decide (f x = k)))) := by
  intro l
  induction l with
  | nil =>
    intro m hnd
    simp [foldIns, newKeysAux]
  | cons i rest ih =>
    intro m hnd
    have hstep : foldIns f m (i :: rest) = foldIns f (groupInsert (f i) i m) rest := rfl
    rw [hstep]
    by_cases hi : f i ∈ gKeys m
    · obtain ⟨hmap, hkeys⟩ := groupInsert_mem_map f i rest m hnd hi
      rw [ih (groupInsert (f i) i m) (by rw [hkeys]; exact hnd), hmap, hkeys]
      congr 1
      simp only [newKeysAux, if_pos hi]
      apply List.map_congr_left
      intro k hk
      have hne : f i ≠ k := by
        intro he
        exact newKeysAux_not_mem_seen f rest (gKeys m) k hk (he ▸ hi)
      rw [filter_cons_of_ne f i rest k hne]
    · rw [groupInsert_not_mem (f i) i m hi]
      have hkeys2 : gKeys (m ++ [(f i, [i])]) = gKeys m ++ [f i] := by
        simp [gKeys]
      have hnd2 : (gKeys m ++ [f i]).Nodup := by
        rw [List.nodup_append]
        refine ⟨hnd, List.nodup_singleton _, ?_⟩
        intro a ha hma
        rw [List.mem_singleton] at hma
        exact hi (hma ▸ ha)
      rw [ih (m ++ [(f i, [i])]) (by rw [hkeys2]; exact hnd2), hkeys2]
      have hcg := newKeysAux_congr f rest (gKeys m ++ [f i]) (f i :: gKeys m)
        (by intro x; simp [or_comm])
      rw [hcg, List.map_append]
      have hshift := map_filter_shift f i rest m
        (fun p hp he => hi (he ▸ List.mem_map_of_mem (fun q => q.1) hp))
      simp only [newKeysAux, if_neg hi, List.map_cons]
      rw [hshift, filter_cons_of_eq f i rest (f i) rfl]
      have htail : (newKeysAux f (f i :: gKeys m) rest).map
            (fun k => (k, (i :: rest).filter (fun x => decide (f x = k)))) =
          (newKeysAux f (f i :: gKeys m) rest).map
            (fun k => (k, rest.filter (fun x => decide (f x = k)))) := by
        apply List.map_congr_left
        intro k hk
        have hne : f i ≠ k := by
          intro he
          exact newKeysAux_not_mem_seen f rest (f i :: gKeys m) k hk
            (by rw [← he]; exact List.mem_cons_self _ _)
        rw [filter_cons_of_ne f i rest k hne]
      rw [htail]
      simp [List.append_assoc]

/-- facetRows with columns is the first-seen list of key tuples, each
mapped to the traversal-order filter of the indices with that tuple. -/
theorem facetRows_cols_eq (rows : List Row) (indices : List Nat)
    (cols : List String) :
    facetRows rows indices (some cols) =
      (newKeysAux (facetKey rows cols) [] indices).map
        (fun k => indices.filter (fun x => decide (facetKey rows cols x = k))) := by
  have h := foldIns_eq (facetKey rows cols) indices [] (by simp [gKeys])
  show (foldIns (facetKey rows cols) [] indices).map (fun p => p.2) = _
  rw [h]
  simp [gKeys, List.map_map, Function.comp]

/-- The count of an index in a keyed filter of the traversal. -/
theorem count_filter_key {κ : Type} [DecidableEq κ] (f : Nat → κ) (l : List Nat)
    (k : κ) (a : Nat) :
    (l.filter (fun x => decide (f x = k))).count a =
      if f a = k then l.count a else 0 := by
  by_cases h : f a = k
  · rw [if_pos h]
    exact List.count_filter (by simp [h])
  · rw [if_neg h]
    rw [List.count_eq_zero]
    intro hmem
    rw [List.mem_filter] at hmem
    exact h (by simpa using hmem.2)

/-- The count of an index in the concatenation of all keyed filters. -/
theorem count_join_filterKeys {κ : Type} [DecidableEq κ] (f : Nat → κ)
    (l : List Nat) (a : Nat) : ∀ (ks : List κ), ks.Nodup →
    ((ks.map (fun k => l.filter (fun x => decide (f x = k)))).flatten).count a =
      if f a ∈ ks then l.count a else 0 := by
  intro ks
  induction ks with
  | nil =>
    intro _
    simp
  | cons k ks ih =>
    intro hnd
    rw [List.map_cons, List.flatten_cons, List.count_append, count_filter_key,
      ih (List.nodup_cons.mp hnd).2]
    by_cases h1 : f a = k
    · rw [if_pos h1]
      have h2 : f a ∉ ks := by
        rw [h1]
        exact (List.nodup_cons.mp hnd).1
      rw [if_neg h2, if_pos (by simp [h1])]
      simp
    · rw [if_neg h1]
      by_cases h2 : f a ∈ ks
      · rw [if_pos h2, if_pos (List.mem_cons_of_mem _ h2)]
        simp
      · rw [if_neg h2, if_neg (by simp [h1, h2])]

/-- Concatenating the filters of a covering list of distinct keys is a
permutation of the traversal. -/
theorem join_keyGroups_perm {κ : Type} [DecidableEq κ] (f : Nat → κ)
    (l : List Nat) (ks : List κ) (hnd : ks.Nodup) (hcov : ∀ x ∈ l, f x ∈ ks) :
    ((ks.map (fun k => l.filter (fun x => decide (f x = k)))).flatten).Perm l := by
  rw [List.perm_iff_count]
  intro a
  rw [count_join_filterKeys f l a ks hnd]
  by_cases ha : a ∈ l
  · rw [if_pos (hcov a ha)]
  · rw [List.count_eq_zero.mpr ha]
    simp

/-- Pointwise equality on a list is equality of the maps. -/
theorem map_eq_map_iff_of_mem {α β : Type} (f g : α → β) (l : List α) :
    l.map f = l.map g ↔ ∀ a ∈ l, f a = g a := by
  induction l with
  | nil => simp
  | cons a l ih => simp [ih]

/-- The heads of the keyed filters, in first-seen key order, are a sublist
of the traversal: groups are ordered by first appearance of their key. -/
theorem newKeysAux_heads_sublist {κ : Type} [DecidableEq κ] (f : Nat → κ)
    (l : List Nat) : ∀ (seen : List κ),
      ((newKeysAux f seen l).map
        (fun k => (l.filter (fun x => decide (f x = k))).headI)).Sublist l := by
  induction l with
  | nil =>
    intro seen
    simp [newKeysAux]
  | cons i rest ih =>
    intro seen
    simp only [newKeysAux]
    by_cases hi : f i ∈ seen
    · rw [if_pos hi]
      have hcg : (newKeysAux f seen rest).map
            (fun k => ((i :: rest).filter (fun x => decide (f x = k))).headI) =
          (newKeysAux f seen rest).map
            (fun k => (rest.filter (fun x => decide (f x = k))).headI) := by
        apply List.map_congr_left
        intro k hk
        have hne : f i ≠ k := by
          intro he
          exact newKeysAux_not_mem_seen f rest seen k hk (he ▸ hi)
        rw [filter_cons_of_ne f i rest k hne]
      rw [hcg]
      exact (ih seen).cons i
    · rw [if_neg hi, List.map_cons, filter_cons_of_eq f i rest (f i) rfl]
      have hcg : (newKeysAux f (f i :: seen) rest).map
            (fun k => ((i :: rest).filter (fun x => decide (f x = k))).headI) =
          (newKeysAux f (f i :: seen) rest).map
            (fun k => (rest.filter (fun x => decide (f x = k))).headI) := by
        apply List.map_congr_left
        intro k hk
        have hne : f i ≠ k := by
          intro he
          exact newKeysAux_not_mem_seen f rest (f i :: seen) k hk
            (by rw [← he]; exact List.mem_cons_self _ _)
        rw [filter_cons_of_ne f i rest k hne]
      rw [hcg]
      exact (ih (f i :: seen)).cons₂ i

/-- Claim C3: with a non-null column list, facetRows returns a partition of
the input indices (join a permutation of the input, groups pairwise
disjoint and nonempty, each group in traversal order), two indices share a
group iff their rows agree element-wise at every listed column, and groups
are ordered by first appearance (the heads form a sublist of the input). -/
theorem facetRows_partition (rows : List Row) (indices : List Nat)
    (cols : List String) (hvalid : ∀ i ∈ indices, i < rows.length) :
    (facetRows rows indices (some cols)).flatten.Perm indices ∧
    (facetRows rows indices (some cols)).Pairwise
      (fun g1 g2 => ∀ i, i ∈ g1 → i ∉ g2) ∧
    (∀ i ∈ indices, ∀ j ∈ indices,
      ((∃ g ∈ facetRows rows indices (some cols), i ∈ g ∧ j ∈ g) ↔
        ∀ c ∈ cols, rowGet (rows.getD i []) c = rowGet (rows.getD j []) c)) ∧
    (∀ g ∈ facetRows rows indices (some cols), g.Sublist indices ∧ g ≠ []) ∧
    ((facetRows rows indices (some cols)).map (fun g => g.headI)).Sublist indices := by
  have heq := facetRows_cols_eq rows indices cols
  have hks_nodup : (newKeysAux (facetKey rows cols) [] indices).Nodup :=
    newKeysAux_nodup (facetKey rows cols) indices []
  have hcov : ∀ x ∈ indices, facetKey rows cols x ∈
      newKeysAux (facetKey rows cols) [] indices := fun x hx =>
    newKeysAux_complete (facetKey rows cols) indices [] x hx (by simp)
  refine ⟨?_, ?_, ?_, ?_, ?_⟩
  · rw [heq]
    exact join_keyGroups_perm (facetKey rows cols) indices _ hks_nodup hcov
  · rw [heq]
    refine List.Pairwise.map _ ?_ hks_nodup
    intro k1 k2 hne i hi1 hi2
    rw [List.mem_filter] at hi1 hi2
    exact hne ((of_decide_eq_true hi1.2).symm.trans (of_decide_eq_true hi2.2))
  · intro i hi j hj
    rw [heq]
    constructor
    · rintro ⟨g, hg, hig, hjg⟩
      rcases List.mem_map.mp hg with ⟨k, hk, rfl⟩
      rw [List.mem_filter] at hig hjg
      have h1 : facetKey rows cols i = k := of_decide_eq_true hig.2
      have h2 : facetKey rows cols j = k := of_decide_eq_true hjg.2
      have hkeq : facetKey rows cols i = facetKey rows cols j := h1.trans h2.symm
      exact (map_eq_map_iff_of_mem _ _ cols).mp hkeq
    · intro hpt
      have hkeq : facetKey rows cols i = facetKey rows cols j :=
        (map_eq_map_iff_of_mem _ _ cols).mpr hpt
      refine ⟨indices.filter
          (fun x => decide (facetKey rows cols x = facetKey rows cols i)),
        List.mem_map_of_mem _ (hcov i hi), ?_, ?_⟩
      · rw [List.mem_filter]
        exact ⟨hi, by simp⟩
      · rw [List.mem_filter]
        exact ⟨hj, by simp [hkeq]⟩
  · intro g hg
    rw [heq] at hg
    rcases List.mem_map.mp hg with ⟨k, hk, rfl⟩
    refine ⟨List.filter_sublist _, ?_⟩
    obtain ⟨x, hx, hfx⟩ := newKeysAux_exists_mem (facetKey rows cols) indices [] k hk
    exact List.ne_nil_of_mem (List.mem_filter.mpr ⟨hx, by simp [hfx]⟩)
  · rw [heq, List.map_map]
    have hh := newKeysAux_heads_sublist (facetKey rows cols) indices []
    simpa [Function.comp] using hh

/-- Witness for C3: the facet example of the spec, rows with column c
valued a, b, a over indices 0, 1, 2, partitions as two groups 0,2 and 1. -/
theorem facetRows_partition_witness :
    (∀ i ∈ [0, 1, 2], i < exampleRows.length) ∧
    facetRows exampleRows [0, 1, 2] (some ["c"]) = [[0, 2], [1]] ∧
    ((facetRows exampleRows [0, 1, 2] (some ["c"])).flatten.Perm [0, 1, 2] ∧
    (facetRows exampleRows [0, 1, 2] (some ["c"])).Pairwise
      (fun g1 g2 => ∀ i, i ∈ g1 → i ∉ g2) ∧
    (∀ i ∈ [0, 1, 2], ∀ j ∈ [0, 1, 2],
      ((∃ g ∈ facetRows exampleRows [0, 1, 2] (some ["c"]), i ∈ g ∧ j ∈ g) ↔
        ∀ c ∈ ["c"],
          rowGet (exampleRows.getD i []) c = rowGet (exampleRows.getD j []) c)) ∧
    (∀ g ∈ facetRows exampleRows [0, 1, 2] (some ["c"]),
      g.Sublist [0, 1, 2] ∧ g ≠ []) ∧
    ((facetRows exampleRows [0, 1, 2] (some ["c"])).map
      (fun g => g.headI)).Sublist [0, 1, 2]) :=
  ⟨by decide, by decide, facetRows_partition exampleRows [0, 1, 2] ["c"] (by decide)⟩

end Charticulator
